import Mathlib

/-!
# Verification of the visionos-assist crawler scripts

This file is a shallow embedding, in Lean 4, of the crawl/extraction logic of
the three Python scripts of the repository:

* create_appledocumentation_data.py - a breadth-first documentation crawler
  (fetch_content, save_main_content, merge_files, extract_framework_name);
* create_swift_doc.py - a thread-pool based crawler for the Swift book
  (get_links, the submit/completion loop of main);
* create_codesamples_data.py - a code-sample scraper
  (fetch_code_samples_in_videos, extract_abstract_and_remove_comment,
  save_code_samples_to_file).

External collaborators (the Selenium driver, BeautifulSoup parsing, the network,
the file system) are modelled as explicit inputs: a page oracle mapping a URL to
the outcome of fetching and extracting it, and an association list standing for
the output directory.  Python strings are modelled as Lean character lists
(with String wrappers where convenient); the Python string methods used by the
scripts (startswith, strip, find, split, replace, in) are embedded as list
functions below.  Machine-level details (thread interleavings) do not affect
the properties proved here: where the source uses a thread pool the model is a
deterministic sequentialisation whose observable result sets are
interleaving-independent, as documented at the relevant definitions.
-/

namespace VisionosAssist

/-! ## Definitions

### Python string primitives, on strings modelled as `List Char` -/

/-- Python `str.startswith`: test whether the second list is a prefix of the first
argument string. -/
def pyStartsWith (s pre : List Char) : Bool :=
  pre.isPrefixOf s

/-- The whitespace characters stripped by Python `str.strip()` (ASCII ones). -/
def isPySpace (c : Char) : Bool :=
  c = ' ' || c = '\t' || c = '\n' || c = '\r' || c = '\x0b' || c = '\x0c'

/-- Python `str.strip()`: drop whitespace from both ends. -/
def pyStrip (l : List Char) : List Char :=
  ((l.dropWhile isPySpace).reverse.dropWhile isPySpace).reverse

/-- Python `str.find(sub)`: the index of the first occurrence of `sub`
(`none` models the return value `-1`). -/
def pyFind : List Char → List Char → Option Nat
  | [], sub => if sub.isEmpty then some 0 else none
  | c :: t, sub => if sub.isPrefixOf (c :: t) then some 0 else (pyFind t sub).map (· + 1)

/-- The literal `"Abstract:"` searched for by `extract_abstract_and_remove_comment`. -/
def abstractTag : List Char :=
  "Abstract:".toList

/-- Python `line.replace("Abstract:", "")`: every (non-overlapping, left-to-right)
occurrence of `"Abstract:"` is removed.  The nine characters of the pattern are
matched structurally so that the function reduces by kernel computation. -/
def removeAbstractTags : List Char → List Char
  | 'A' :: 'b' :: 's' :: 't' :: 'r' :: 'a' :: 'c' :: 't' :: ':' :: rest =>
    removeAbstractTags rest
  | c :: t => c :: removeAbstractTags t
  | [] => []

/-- Shallow embedding of `extract_abstract_and_remove_comment` from
create_codesamples_data.py (lines 158-168).  Returns `(abstract, content)`.
The source initialises `abstract = ""`; when the content starts with `"/*"`
and contains `"*/"`, it takes `content[2:end_index]` stripped as the comment,
keeps (via repeated reassignment in the `for` loop) the *last* line whose
stripped form starts with `"Abstract:"` - with every occurrence of
`"Abstract:"` replaced by `""` and the result stripped - and replaces the
content by `content[end_index + 2:].strip()`. -/
def extract_abstract_and_remove_comment (content : List Char) : List Char × List Char :=
  if "/*".toList.isPrefixOf content then
    match pyFind content "*/".toList with
    | some end_index =>
      let comment_content := pyStrip ((content.take end_index).drop 2)
      let abstract := (comment_content.splitOn '\n').foldl
        (fun acc line =>
          if abstractTag.isPrefixOf (pyStrip line) then
            pyStrip (removeAbstractTags (pyStrip line))
          else acc) []
      (abstract, pyStrip (content.drop (end_index + 2)))
    | none => ([], content)
  else ([], content)

/-- Specification-style restatement of `extract_abstract_and_remove_comment`:
the abstract is described through `List.filter` and `List.getLast?` (the last
stripped comment line starting with `"Abstract:"`, with all `"Abstract:"`
occurrences removed and the result trimmed) instead of the source's fold. -/
def extractCommentSpec (content : List Char) : List Char × List Char :=
  if "/*".toList.isPrefixOf content then
    match pyFind content "*/".toList with
    | some end_index =>
      let lines := ((pyStrip ((content.take end_index).drop 2)).splitOn '\n').map pyStrip
      let abstract :=
        match (lines.filter (fun ln => abstractTag.isPrefixOf ln)).getLast? with
        | some ln => pyStrip (removeAbstractTags ln)
        | none => []
      (abstract, pyStrip (content.drop (end_index + 2)))
    | none => ([], content)
  else ([], content)

/-- Modelled from the claim wording of C10: the abstract as the last comment
line starting with `"Abstract:"` with that *single leading occurrence*
(the prefix) removed and the result trimmed.  This is the statement to be
compared against the source function, which instead removes every
occurrence. -/
def claimAbstractOf (content : List Char) : List Char :=
  if "/*".toList.isPrefixOf content then
    match pyFind content "*/".toList with
    | some end_index =>
      let lines := ((pyStrip ((content.take end_index).drop 2)).splitOn '\n').map pyStrip
      match (lines.filter (fun ln => abstractTag.isPrefixOf ln)).getLast? with
      | some ln => pyStrip (ln.drop 9)
      | none => []
    | none => []
  else []

/-! ### create_appledocumentation_data.py: fetch_content and the crawl loop

The Selenium driver plus BeautifulSoup extraction are the external
Fetcher/Extractor collaborators of fetch_content.  They are modelled by a
page oracle: `none` models a raised exception (timeout, transport error) or a
page whose parse has no `main` element (both paths return `[], [], ''`);
`some (hrefs, text)` models a successful fetch whose main element contains
anchors with the given href attributes and whose single extracted record
formats to `text` (the title, category and so on only influence `text`, so
they are not modelled separately). -/

/-- The external page oracle: URL to fetch/extraction outcome. -/
abbrev PageOracle := String → Option (List String × String)

/-- Python `str.startswith` on `String` values. -/
def pyStartsWithS (s pre : String) : Bool :=
  pre.toList.isPrefixOf s.toList

/-- Python `c in s` (single-character membership) on `String` values. -/
def pyContainsChar (s : String) (c : Char) : Bool :=
  s.toList.contains c

/-- `urljoin('https://developer.apple.com', href)` as called on fetch_content
line 122.  Every href for which the join is evaluated satisfies
`startswith('/documentation')` (the conjunction on lines 124-126
short-circuits), and for such path-absolute hrefs urljoin prepends the
scheme and host of the base. -/
def urljoinApple (href : String) : String :=
  "https://developer.apple.com" ++ href

/-- The admission test of the sub_urls comprehension (fetch_content lines
121-127): href starts with '/documentation', contains no '#', its join is
prefixed by the crawl root main_url and has not been seen yet. -/
def sub_url_keep (main_url : String) (visited_urls : List String) (href : String) : Bool :=
  pyStartsWithS href "/documentation" && !pyContainsChar href '#'
    && pyStartsWithS (urljoinApple href) main_url
    && !visited_urls.contains (urljoinApple href)

/-- The sub_urls comprehension of fetch_content lines 121-127: the joined form
of every admitted href, in document order. -/
def sub_urls (main_url : String) (visited_urls : List String) (hrefs : List String) :
    List String :=
  (hrefs.filter (sub_url_keep main_url visited_urls)).map urljoinApple

/-- Shallow embedding of fetch_content (lines 90-133).  Returns the updated
visited set, the discovered sub_urls, and the formatted text of the page's
record - `""` models the falsy `''` returned on the already-seen path, the
no-main-content path and the exception path.  `visited_urls.add(url)`
happens before the fetch is attempted (line 94), so a failing URL stays
recorded as seen. -/
def fetch_content (pages : PageOracle) (main_url url : String)
    (visited_urls : List String) : List String × List String × String :=
  if visited_urls.contains url then (visited_urls, [], "")
  else
    let visited' := url :: visited_urls
    match pages url with
    | none => (visited', [], "")
    | some (hrefs, text) => (visited', sub_urls main_url visited' hrefs, text)

/-- The loop state of save_main_content: the pending queue `to_visit`, the
seen set `visited_urls`, the processed pages (in processing order; its length
is `pages_processed`), the number of `driver.get` calls performed, and the
bytes written to the output file so far. -/
structure CrawlState where
  toVisit : List String
  visited : List String
  processed : List String
  fetches : Nat
  out : String
deriving DecidableEq, Repr

/-- One iteration of the while-loop body of save_main_content (txt branch,
lines 170-181; the csv branch at lines 157-167 has the same control flow with
the truthiness guard on `page_data` instead of `formatted_text`): pop the head
of to_visit, skip it if already visited, otherwise fetch it, and only when the
formatted text is truthy write it, count the page and enqueue the discovered
sub_urls at the back of the queue. -/
def crawl_step (pages : PageOracle) (main_url : String) (s : CrawlState) : CrawlState :=
  match s.toVisit with
  | [] => s
  | current_url :: rest =>
    if s.visited.contains current_url then { s with toVisit := rest }
    else
      let r := fetch_content pages main_url current_url s.visited
      if r.2.2 = "" then
        { toVisit := rest, visited := r.1, processed := s.processed,
          fetches := s.fetches + 1, out := s.out }
      else
        { toVisit := rest ++ r.2.1, visited := r.1,
          processed := s.processed ++ [current_url],
          fetches := s.fetches + 1, out := s.out ++ r.2.2 ++ "\n" }

/-- The while-loop guard of save_main_content lines 157 and 170:
`to_visit and (max_pages == 0 or pages_processed < max_pages)`. -/
def crawl_continue (max_pages : Nat) (s : CrawlState) : Bool :=
  !s.toVisit.isEmpty && (max_pages == 0 || decide (s.processed.length < max_pages))

/-- The guarded loop: perform one body iteration while the guard holds,
otherwise stay (the loop has exited). -/
def crawl_loop_step (pages : PageOracle) (main_url : String) (max_pages : Nat)
    (s : CrawlState) : CrawlState :=
  if crawl_continue max_pages s then crawl_step pages main_url s else s

/-- `n` iterations of the guarded loop of save_main_content. -/
def crawl_iter (pages : PageOracle) (main_url : String) (max_pages : Nat)
    (n : Nat) (s : CrawlState) : CrawlState :=
  (crawl_loop_step pages main_url max_pages)^[n] s

/-- The loop state on entry to the crawl of save_main_content (lines 147-149):
`to_visit = [url]`, nothing visited, nothing processed, no fetches, and a
freshly opened empty output file. -/
def crawl_init (url : String) : CrawlState :=
  ⟨[url], [], [], 0, ""⟩

/-- The invariant behind the amended claim C1: the seen set never holds a URL
twice (each URL is fetched at most once), every processed page is recorded as
seen, and no page is processed twice. -/
def DedupInv (s : CrawlState) : Prop :=
  s.visited.Nodup ∧ (∀ v ∈ s.processed, v ∈ s.visited) ∧ s.processed.Nodup

/-- A concrete four-page documentation graph: the root page links to a and b,
and both a and b link to c. -/
def exPages : PageOracle := fun u =>
  if u = "https://developer.apple.com/documentation/fw" then
    some (["/documentation/fw/a", "/documentation/fw/b"], "R")
  else if u = "https://developer.apple.com/documentation/fw/a" then
    some (["/documentation/fw/c"], "A")
  else if u = "https://developer.apple.com/documentation/fw/b" then
    some (["/documentation/fw/c"], "B")
  else if u = "https://developer.apple.com/documentation/fw/c" then
    some ([], "C")
  else none

/-! ### create_swift_doc.py: get_links and the submit/complete loop of main -/

/-- The anchor hrefs present on a rendered page, as returned by
`driver.find_elements(By.TAG_NAME, 'a')` followed by `get_attribute('href')`
(absolute URLs): the external fetch collaborator of create_swift_doc.py. -/
abbrev LinkOracle := String → List String

/-- Shallow embedding of get_links (create_swift_doc.py lines 55-62): keep
the hrefs that are non-null, start with base_url and contain no '#'. -/
def get_links (links : LinkOracle) (url base_url : String) : List String :=
  (links url).filter (fun h => pyStartsWithS h base_url && !pyContainsChar h '#')

/-- The scope invariant of the crawl: every pending and every fetched URL is
prefixed by the crawl root. -/
def ScopeInv (main_url : String) (s : CrawlState) : Prop :=
  (∀ v ∈ s.toVisit, pyStartsWithS v main_url = true)
    ∧ (∀ v ∈ s.visited, pyStartsWithS v main_url = true)

/-- Modelled from the claim wording of C7: URL identity is the normalized
string with the fragment stripped, so an in-scope href carrying a fragment
would be admitted under its fragment-stripped form - the href is cut at its
first '#' and the remaining admission tests are applied to the stripped
form. -/
def claimFragmentKeep (main_url : String) (visited : List String) (href : String) : Bool :=
  let stripped := String.mk (href.toList.takeWhile (fun c => !(c == '#')))
  pyStartsWithS stripped "/documentation"
    && pyStartsWithS (urljoinApple stripped) main_url
    && !visited.contains (urljoinApple stripped)

/-! ### Artifact naming, the skip-if-present gate and merge_files -/

/-- The path component of an absolute http(s) URL, as computed by
`urlparse(url).path`: everything from the first '/' after the scheme and
host. -/
def urlPath (url : String) : String :=
  let rest := if pyStartsWithS url "https://" then String.mk (url.toList.drop 8)
              else if pyStartsWithS url "http://" then String.mk (url.toList.drop 7) else url
  String.mk (rest.toList.dropWhile (fun c => !(c == '/')))

/-- Python `path.strip('/').split('/')` as on line 75 of
create_appledocumentation_data.py. -/
def pathSegments (url : String) : List String :=
  let stripped :=
    (((urlPath url).toList.dropWhile (fun c => c == '/')).reverse.dropWhile
      (fun c => c == '/')).reverse
  (stripped.splitOn '/').map String.mk

/-- extract_framework_name (lines 74-75): the second component of the URL's
slash-stripped path.  (On a URL whose path has fewer than two components the
Python raises IndexError; the model returns "" there - no claim exercises
that path.) -/
def extract_framework_name (url : String) : String :=
  (pathSegments url).getD 1 ""

/-- Python `str.lower()` (ASCII). -/
def pyLower (s : String) : String :=
  String.mk (s.toList.map Char.toLower)

/-- The output directory, modelled as an association list from file name to
file content; `os.path.exists` is a lookup. -/
abbrev FileSystem := List (String × String)

/-- The artifact file name save_main_content writes for a root (line 141):
`os.path.join(output_dir, framework_name.lower() + '.' + fmt)`. -/
def output_filename (output_dir fmt url : String) : String :=
  output_dir ++ "/" ++ pyLower (extract_framework_name url) ++ "." ++ fmt

/-- Shallow embedding of save_main_content (lines 135-181), txt branch, with
an explicit iteration budget for the while loop.  If the root's artifact
already exists the crawl is skipped entirely (lines 143-145): no webdriver is
started, no fetch happens, the file system is untouched.  Otherwise the file
is created and filled by the crawl loop.  Returns the resulting file system
and the number of driver.get calls performed. -/
def save_main_content (pages : PageOracle) (output_dir fmt : String)
    (max_pages fuel : Nat) (fs : FileSystem) (url : String) : FileSystem × Nat :=
  match fs.lookup (output_filename output_dir fmt url) with
  | some _ => (fs, 0)
  | none =>
    let final := crawl_iter pages url max_pages fuel (crawl_init url)
    ((output_filename output_dir fmt url, final.out) :: fs, final.fetches)

/-- merge_files (lines 183-207), txt branch.  `glob.glob` enumerates the
output directory in the order of the underlying readdir - it does not sort -
and merge_files concatenates the file contents in exactly that enumeration
order, appending a newline after each file.  The listing is the model's
input. -/
def merge_files (listing : FileSystem) : String :=
  listing.foldl (fun acc file => acc ++ file.2 ++ "\n") ""

/-- Lexicographic comparison of file names, character by character.
Modelled from the claim wording of C8 ("lexicographic by root identifier"). -/
def lexNameLe : List Char → List Char → Bool
  | [], _ => true
  | _ :: _, [] => false
  | c :: cs, d :: ds => if c < d then true else if d < c then false else lexNameLe cs ds

/-- Modelled from the claim wording of C8: the merge as the claim describes
it, concatenating the artifacts in lexicographic file-name order. -/
def merge_files_sorted (listing : FileSystem) : String :=
  merge_files (listing.insertionSort (fun a b => lexNameLe a.1.toList b.1.toList = true))

/-- The concatenation of the artifact contents in listing order, written as
plain structural recursion. -/
def concatContents : FileSystem → String
  | [] => ""
  | file :: rest => file.2 ++ "\n" ++ concatContents rest

/-! ### Graph-level notions for the crawl analysis (claims C2 and C4) -/

/-- The statically admissible out-links of a page: what the sub_urls
comprehension yields on an empty seen set, provided the page fetches
successfully with truthy text (failed pages contribute no links). -/
def targets (pages : PageOracle) (main_url u : String) : List String :=
  match pages u with
  | none => []
  | some (hrefs, text) => if text = "" then [] else sub_urls main_url [] hrefs

/-- Whether a page fetches successfully with truthy formatted text. -/
def fetch_ok (pages : PageOracle) (u : String) : Bool :=
  match pages u with
  | none => false
  | some (_, text) => !(text == "")

/-- Reachability along statically admissible links, from URL a to URL b. -/
def Reaches (pages : PageOracle) (main_url : String) : String → String → Prop :=
  Relation.ReflTransGen (fun a b => b ∈ targets pages main_url a)

/-- A finite link universe for a crawl root: a duplicate-free list of URLs
containing the seed and closed under admissible links.  This is the "finite
link graph" hypothesis of claims C2 and C4. -/
structure ClosedUniverse (pages : PageOracle) (main_url : String) (U : List String) : Prop where
  nodup : U.Nodup
  seed_mem : main_url ∈ U
  closed : ∀ u ∈ U, ∀ v ∈ targets pages main_url u, v ∈ U

/-- Every page of the universe fetches successfully with truthy text: the
"fully connected, no failures" hypothesis of claims C2 and C4. -/
def AllSuccess (pages : PageOracle) (U : List String) : Prop :=
  ∀ u ∈ U, fetch_ok pages u = true

/-- The termination measure of the crawl loop: the pending-queue length plus,
for every not-yet-visited universe page, one plus its target count. -/
def crawlMeasure (pages : PageOracle) (main_url : String) (U : List String)
    (s : CrawlState) : Nat :=
  s.toVisit.length
    + ((U.filter (fun u => !s.visited.contains u)).map
        (fun u => 1 + (targets pages main_url u).length)).sum

/-- The queue-containment invariant used for termination: every pending URL
belongs to the universe. -/
def QueueInU (U : List String) (s : CrawlState) : Prop :=
  ∀ v ∈ s.toVisit, v ∈ U

/-- The main invariant of the sequential crawl, for a closed universe with
all pages fetching successfully: the queue and the seen set stay inside the
universe; every admissible link of a fetched page is fetched or pending
(nothing reachable is lost); the seen set and the processed list hold the
same URLs; the seed is fetched or pending; and everything fetched or pending
is reachable from the seed. -/
def CrawlInv (pages : PageOracle) (main_url : String) (U : List String)
    (s : CrawlState) : Prop :=
  QueueInU U s
    ∧ (∀ v ∈ s.visited, v ∈ U)
    ∧ (∀ u ∈ s.visited, ∀ v ∈ targets pages main_url u,
        v ∈ s.visited ∨ v ∈ s.toVisit)
    ∧ (∀ v, v ∈ s.visited ↔ v ∈ s.processed)
    ∧ (main_url ∈ s.visited ∨ main_url ∈ s.toVisit)
    ∧ (∀ v ∈ s.visited, Reaches pages main_url main_url v)
    ∧ (∀ v ∈ s.toVisit, Reaches pages main_url main_url v)

/-- A concrete universe for the exPages graph: the root and its three
descendant pages. -/
def exU : List String :=
  ["https://developer.apple.com/documentation/fw",
   "https://developer.apple.com/documentation/fw/a",
   "https://developer.apple.com/documentation/fw/b",
   "https://developer.apple.com/documentation/fw/c"]

/-- Python's `set(...)` constructor on a list, in first-insertion order.
(CPython set iteration order is unspecified; the set of URLs processed by the
loop below does not depend on the order chosen, because a URL is submitted at
the first completion that discovers it and `all_urls` only grows.) -/
def pySet (l : List String) : List String :=
  l.foldl (fun acc x => if acc.contains x then acc else acc ++ [x]) []

/-- Deterministic sequentialisation of the submit/complete loop of main
(create_swift_doc.py lines 109-127).  `all_urls = set(get_links(base))` seeds
one process_url future per discovered link; `as_completed(futures)` snapshots
the futures present when the iteration starts, so the loop consumes only the
completions of those *initial* submissions.  Each consumed completion
submits its unseen discovered links (they do run - the executor shutdown
waits for them, and their content is written) but the results of these late
futures are never iterated, so links *they* discover are never submitted.
Returns the URLs for which a process_url call is made: the snapshot plus the
late submissions.  (`visited_urls.add(url)` on line 125 actually re-adds the
stale loop variable of the submission loop, the last seed link; the model
adds the completed URL instead.  The difference is unobservable: in both
cases `visited_urls ⊆ all_urls` throughout, so the admission test
`link not in visited_urls and link not in all_urls` reduces to the all_urls
test.) -/
def swift_main_processed (links : LinkOracle) (base_url : String) : List String :=
  let snapshot := pySet (get_links links base_url base_url)
  let final := snapshot.foldl
    (fun (acc : List String × List String × List String) url =>
      let all_urls := acc.1
      let visited := acc.2.1
      let late := acc.2.2
      let acc2 := (get_links links url base_url).foldl
        (fun (a : List String × List String) link =>
          if !a.1.contains link && !visited.contains link then
            (a.1 ++ [link], a.2 ++ [link])
          else a)
        (all_urls, late)
      (acc2.1, visited ++ [url], acc2.2))
    (snapshot, [], [])
  snapshot ++ final.2.2

/-- The concrete three-hop chain under the Swift book root used against
claim C2: the seed page links to a, a links to b, b links to c. -/
def swiftLinks : LinkOracle := fun u =>
  if u = "https://docs.swift.org/swift-book/documentation/the-swift-programming-language"
    then ["https://docs.swift.org/swift-book/documentation/the-swift-programming-language/a"]
  else if u = "https://docs.swift.org/swift-book/documentation/the-swift-programming-language/a"
    then ["https://docs.swift.org/swift-book/documentation/the-swift-programming-language/b"]
  else if u = "https://docs.swift.org/swift-book/documentation/the-swift-programming-language/b"
    then ["https://docs.swift.org/swift-book/documentation/the-swift-programming-language/c"]
  else []

/-! ### create_codesamples_data.py: failure handling of the video scraper -/

/-- One extracted sample record (the dict built on lines 114-120). -/
structure CodeSample where
  url : String
  title : String
  description : String
  code_title : String
  code_sample : String
deriving DecidableEq, Repr

/-- The outcome of loading one video page - the external collaborator of
fetch_code_samples_in_videos: the WebDriverWait may raise (loadError, with
the exception's message), the parse may lack a main element, or the page
renders with a title, a description and a list of sample-code containers,
each carrying a code title and the (possibly empty) joined text of its
code-source elements. -/
inductive VideoPageLoad where
  | loadError (e : String)
  | noMain
  | page (title description : String) (containers : List (String × String))
deriving DecidableEq, Repr

/-- fetch_code_samples_in_videos returns either a list of sample dicts or -
on its two error paths (lines 88-90 and 96-98) - a plain error *string*. -/
inductive VideoFetchResult where
  | samples (l : List CodeSample)
  | errorMsg (s : String)
deriving DecidableEq, Repr

/-- Shallow embedding of fetch_code_samples_in_videos (lines 79-132). -/
def fetch_code_samples_in_videos (load : String → VideoPageLoad) (url : String) :
    VideoFetchResult :=
  match load url with
  | .loadError e => .errorMsg ("Error while loading " ++ url ++ ": " ++ e)
  | .noMain => .errorMsg ("No main content found for " ++ url)
  | .page title description containers =>
    let code_samples := (containers.filter (fun c => !(c.2 == ""))).map
      (fun c => (⟨url, title, description, c.1, c.2⟩ : CodeSample))
    .samples (if code_samples.isEmpty then
        [⟨url, title, description, "No Code Title Found",
          "No code samples found for this URL"⟩]
      else code_samples)

/-- An element of the `all_code_samples` list built by main: Python lists are
heterogeneous, and `list.extend(x)` iterates `x` - extending with a sample
list appends sample dicts, while extending with an error *string* appends the
string's individual characters. -/
inductive OutEntry where
  | sample (s : CodeSample)
  | ch (c : Char)
deriving DecidableEq, Repr

/-- `all_code_samples.extend(code_samples)` (line 318) applied to the result
of fetch_code_samples_in_videos. -/
def extendResult (acc : List OutEntry) (r : VideoFetchResult) : List OutEntry :=
  match r with
  | .samples l => acc ++ l.map OutEntry.sample
  | .errorMsg s => acc ++ s.toList.map OutEntry.ch

/-- The session-link loop of main (lines 316-318). -/
def collect_video_samples (load : String → VideoPageLoad) (urls : List String) :
    List OutEntry :=
  urls.foldl (fun acc u => extendResult acc (fetch_code_samples_in_videos load u)) []

/-- One txt block written by save_code_samples_to_file (lines 254-259). -/
def formatSampleTxt (s : CodeSample) : String :=
  "url: " ++ s.url ++ "\n" ++ "title: " ++ s.title ++ "\n"
    ++ "description: " ++ s.description ++ "\n"
    ++ "code_title: " ++ s.code_title ++ "\n"
    ++ "code_sample:\n" ++ s.code_sample ++ "\n\n"

/-- save_code_samples_to_file (lines 251-260), txt branch: writing a sample
dict emits its block; reaching a character entry evaluates `sample['url']` on
a str, which raises TypeError - modelled as Except.error, aborting the save
and, since nothing catches it, the whole run. -/
def save_code_samples_to_file (entries : List OutEntry) : Except String String :=
  entries.foldl
    (fun acc e =>
      acc.bind (fun out =>
        match e with
        | .sample s => Except.ok (out ++ formatSampleTxt s)
        | .ch _ => Except.error "TypeError: string indices must be integers"))
    (Except.ok "")

/-! ## Theorems

### extract_abstract_and_remove_comment (claim C10) -/

/-- The fold performed by the source's `for` loop (reassigning `abstract` on
every matching line) keeps the value computed from the *last* element
satisfying the test. -/
theorem foldl_keepLast {α β : Type} (p : α → Bool) (f : α → β) :
    ∀ (l : List α) (a : β),
      l.foldl (fun acc x => if p x then f x else acc) a
        = ((l.filter p).getLast?.map f).getD a := by
  intro l
  induction l with
  | nil => intro a; simp
  | cons x t ih =>
    intro a
    simp only [List.foldl_cons, List.filter_cons]
    by_cases h : p x
    · simp only [h, if_true]
      rw [ih]
      cases hys : t.filter p with
      | nil => simp
      | cons y ys =>
        rw [List.getLast?_cons_cons]
        cases hz : (y :: ys).getLast? with
        | none => simp [List.getLast?_eq_none_iff] at hz
        | some z => simp
    · simp only [h, Bool.false_eq_true, if_false]
      exact ih a

/-- Claim C10 (amended): `extract_abstract_and_remove_comment` is a total pure
function agreeing everywhere with the specification-style restatement
`extractCommentSpec`: an input that does not start with `"/*"` or contains no
`"*/"` is returned unchanged with an empty abstract; otherwise the returned
content is the part after the first `"*/"` stripped of surrounding whitespace,
and the abstract is the last stripped comment line starting with
`"Abstract:"`, with every occurrence of `"Abstract:"` removed and the result
trimmed, or empty if no such line exists. -/
theorem c10_extract_abstract_and_remove_comment_spec (content : List Char) :
    extract_abstract_and_remove_comment content = extractCommentSpec content := by
  unfold extract_abstract_and_remove_comment extractCommentSpec
  by_cases h : "/*".toList.isPrefixOf content
  · simp only [h, if_true]
    cases hf : pyFind content "*/".toList with
    | none => rfl
    | some i =>
      simp only [Prod.mk.injEq]
      refine ⟨?_, trivial⟩
      rw [foldl_keepLast]
      have hcomp : (((fun ln => abstractTag.isPrefixOf ln) ∘ pyStrip) : List Char → Bool)
          = fun line => abstractTag.isPrefixOf (pyStrip line) := rfl
      rw [List.filter_map, hcomp, List.getLast?_map]
      cases ho : (((pyStrip ((content.take i).drop 2)).splitOn '\n').filter
          (fun line => abstractTag.isPrefixOf (pyStrip line))).getLast? with
      | none => rfl
      | some z => rfl
  · simp only [h, Bool.false_eq_true, if_false]

/-- Claim C10, counterexample to the claim as stated: on the input
`"/*\nAbstract: x Abstract: y\n*/ body"` the source removes *every* occurrence
of `"Abstract:"` from the matching comment line (yielding `"x  y"`), whereas
the claim's reading - only the prefix removed - would yield
`"x Abstract: y"`. -/
theorem c10_counterexample :
    (extract_abstract_and_remove_comment
        "/*\nAbstract: x Abstract: y\n*/ body".toList).1 = "x  y".toList
      ∧ claimAbstractOf "/*\nAbstract: x Abstract: y\n*/ body".toList
          = "x Abstract: y".toList
      ∧ (extract_abstract_and_remove_comment
            "/*\nAbstract: x Abstract: y\n*/ body".toList).1
          ≠ claimAbstractOf "/*\nAbstract: x Abstract: y\n*/ body".toList :=
  ⟨by decide, by decide, by decide⟩

/-! ### The crawl loop: case analysis and iteration lemmas -/

/-- fetch_content on an already-seen URL: `[], [], ''` without touching the
driver. -/
theorem fetch_content_seen (pages : PageOracle) (main_url url : String)
    (visited : List String) (h : visited.contains url = true) :
    fetch_content pages main_url url visited = (visited, [], "") := by
  unfold fetch_content
  rw [h]
  rfl

/-- fetch_content on a fresh URL whose fetch raises or whose page has no main
element: the URL is marked seen, no records, no discovered URLs. -/
theorem fetch_content_fail (pages : PageOracle) (main_url url : String)
    (visited : List String) (h : visited.contains url = false)
    (hp : pages url = none) :
    fetch_content pages main_url url visited = (url :: visited, [], "") := by
  unfold fetch_content
  rw [h, hp]
  rfl

/-- fetch_content on a fresh URL whose fetch succeeds. -/
theorem fetch_content_ok (pages : PageOracle) (main_url url : String)
    (visited : List String) (hrefs : List String) (text : String)
    (h : visited.contains url = false) (hp : pages url = some (hrefs, text)) :
    fetch_content pages main_url url visited
      = (url :: visited, sub_urls main_url (url :: visited) hrefs, text) := by
  unfold fetch_content
  rw [h, hp]
  rfl

/-- A loop iteration on an empty queue does nothing (the loop is not entered). -/
theorem crawl_step_nil (pages : PageOracle) (main_url : String) (s : CrawlState)
    (h : s.toVisit = []) : crawl_step pages main_url s = s := by
  unfold crawl_step
  rw [h]

/-- A loop iteration popping an already-visited URL: `continue` (line 172-173),
only the queue shrinks. -/
theorem crawl_step_seen (pages : PageOracle) (main_url : String) (s : CrawlState)
    (u : String) (rest : List String) (h : s.toVisit = u :: rest)
    (hv : s.visited.contains u = true) :
    crawl_step pages main_url s = { s with toVisit := rest } := by
  unfold crawl_step
  rw [h]
  simp only [hv, if_true]

/-- A loop iteration popping a fresh URL whose fetch fails (or whose page has
no main element): one driver.get is spent, the URL is marked seen, nothing is
written, nothing is counted, nothing is enqueued. -/
theorem crawl_step_fail (pages : PageOracle) (main_url : String) (s : CrawlState)
    (u : String) (rest : List String) (h : s.toVisit = u :: rest)
    (hv : s.visited.contains u = false) (hp : pages u = none) :
    crawl_step pages main_url s
      = ⟨rest, u :: s.visited, s.processed, s.fetches + 1, s.out⟩ := by
  unfold crawl_step
  rw [h]
  simp only [hv, Bool.false_eq_true, if_false]
  rw [fetch_content_fail pages main_url u s.visited hv hp]
  rfl

/-- A loop iteration popping a fresh URL whose fetch succeeds with truthy
formatted text: the text is written, the page counted, the sub_urls enqueued
at the back. -/
theorem crawl_step_ok (pages : PageOracle) (main_url : String) (s : CrawlState)
    (u : String) (rest hrefs : List String) (text : String)
    (h : s.toVisit = u :: rest) (hv : s.visited.contains u = false)
    (hp : pages u = some (hrefs, text)) (ht : text ≠ "") :
    crawl_step pages main_url s
      = ⟨rest ++ sub_urls main_url (u :: s.visited) hrefs, u :: s.visited,
          s.processed ++ [u], s.fetches + 1, s.out ++ text ++ "\n"⟩ := by
  unfold crawl_step
  rw [h]
  simp only [hv, Bool.false_eq_true, if_false]
  rw [fetch_content_ok pages main_url u s.visited hrefs text hv hp]
  exact if_neg ht

/-- A loop iteration popping a fresh URL whose fetch succeeds but whose
formatted text is falsy (`''`): treated like a failure - seen, not counted,
nothing enqueued.  (With the source's format_data_to_text this path is
unreachable, since a successful fetch always formats to a non-empty string;
it is kept for faithfulness to the guard on line 175.) -/
theorem crawl_step_emptytext (pages : PageOracle) (main_url : String) (s : CrawlState)
    (u : String) (rest hrefs : List String) (h : s.toVisit = u :: rest)
    (hv : s.visited.contains u = false) (hp : pages u = some (hrefs, "")) :
    crawl_step pages main_url s
      = ⟨rest, u :: s.visited, s.processed, s.fetches + 1, s.out⟩ := by
  unfold crawl_step
  rw [h]
  simp only [hv, Bool.false_eq_true, if_false]
  rw [fetch_content_ok pages main_url u s.visited hrefs "" hv hp]
  rfl

/-- Case eliminator for one loop iteration: every property of
`crawl_step pages main_url s` follows from the five possible shapes of the
iteration (empty queue, already-seen URL, failed fetch, falsy text,
successful page). -/
theorem crawl_step_elim (pages : PageOracle) (main_url : String) (s : CrawlState)
    (motive : CrawlState → Prop)
    (hnil : s.toVisit = [] → motive s)
    (hseen : ∀ u rest, s.toVisit = u :: rest → s.visited.contains u = true →
      motive { s with toVisit := rest })
    (hfail : ∀ u rest, s.toVisit = u :: rest → s.visited.contains u = false →
      pages u = none →
      motive ⟨rest, u :: s.visited, s.processed, s.fetches + 1, s.out⟩)
    (hempty : ∀ u rest hrefs, s.toVisit = u :: rest → s.visited.contains u = false →
      pages u = some (hrefs, "") →
      motive ⟨rest, u :: s.visited, s.processed, s.fetches + 1, s.out⟩)
    (hok : ∀ u rest hrefs text, s.toVisit = u :: rest → s.visited.contains u = false →
      pages u = some (hrefs, text) → text ≠ "" →
      motive ⟨rest ++ sub_urls main_url (u :: s.visited) hrefs, u :: s.visited,
        s.processed ++ [u], s.fetches + 1, s.out ++ text ++ "\n"⟩) :
    motive (crawl_step pages main_url s) := by
  match hv : s.toVisit with
  | [] =>
    rw [crawl_step_nil _ _ _ hv]
    exact hnil hv
  | u :: rest =>
    cases hc : s.visited.contains u with
    | true =>
      rw [crawl_step_seen _ _ _ _ _ hv hc]
      exact hseen u rest hv hc
    | false =>
      cases hp : pages u with
      | none =>
        rw [crawl_step_fail _ _ _ _ _ hv hc hp]
        exact hfail u rest hv hc hp
      | some pr =>
        obtain ⟨hrefs, text⟩ := pr
        by_cases ht : text = ""
        · subst ht
          rw [crawl_step_emptytext _ _ _ _ _ _ hv hc hp]
          exact hempty u rest hrefs hv hc hp
        · rw [crawl_step_ok _ _ _ _ _ _ _ hv hc hp ht]
          exact hok u rest hrefs text hv hc hp ht

/-- A property preserved by one loop body iteration is preserved by any number
of guarded iterations. -/
theorem crawl_iter_inv (pages : PageOracle) (main_url : String) (max_pages : Nat)
    (P : CrawlState → Prop)
    (hstep : ∀ s, P s → P (crawl_step pages main_url s)) :
    ∀ (n : Nat) (s : CrawlState), P s → P (crawl_iter pages main_url max_pages n s) := by
  intro n
  induction n with
  | zero => intro s hs; exact hs
  | succ k ih =>
    intro s hs
    show P ((crawl_loop_step pages main_url max_pages)^[k + 1] s)
    rw [Function.iterate_succ_apply]
    refine ih _ ?_
    unfold crawl_loop_step
    split
    · exact hstep s hs
    · exact hs

/-- Peeling a guarded iteration from the end. -/
theorem crawl_iter_succ (pages : PageOracle) (main_url : String) (max_pages : Nat)
    (n : Nat) (s : CrawlState) :
    crawl_iter pages main_url max_pages (n + 1) s
      = crawl_loop_step pages main_url max_pages
          (crawl_iter pages main_url max_pages n s) := by
  unfold crawl_iter
  rw [Function.iterate_succ_apply']

/-- Once the loop guard has gone false the iteration is stationary. -/
theorem crawl_iter_stable (pages : PageOracle) (main_url : String) (max_pages : Nat)
    (n : Nat) (s : CrawlState)
    (h : crawl_continue max_pages (crawl_iter pages main_url max_pages n s) = false) :
    ∀ j, crawl_iter pages main_url max_pages (n + j) s
      = crawl_iter pages main_url max_pages n s := by
  intro j
  induction j with
  | zero => rfl
  | succ k ih =>
    rw [show n + (k + 1) = (n + k) + 1 by omega, crawl_iter_succ, ih]
    unfold crawl_loop_step
    rw [h]
    exact if_neg (by simp)

/-! ### Per-root dedup and failed fetches (claims C1, C9) -/

theorem dedupInv_step (pages : PageOracle) (main_url : String) (s : CrawlState)
    (hs : DedupInv s) : DedupInv (crawl_step pages main_url s) := by
  obtain ⟨hnv, hpv, hnp⟩ := hs
  refine crawl_step_elim pages main_url s DedupInv ?_ ?_ ?_ ?_ ?_
  · intro _; exact ⟨hnv, hpv, hnp⟩
  · intro u rest _ _; exact ⟨hnv, hpv, hnp⟩
  · intro u rest _ hc _
    have hu : u ∉ s.visited := by simpa using hc
    exact ⟨by simp [hu, hnv], fun v hv => .tail _ (hpv v hv), hnp⟩
  · intro u rest hrefs _ hc _
    have hu : u ∉ s.visited := by simpa using hc
    exact ⟨by simp [hu, hnv], fun v hv => .tail _ (hpv v hv), hnp⟩
  · intro u rest hrefs text _ hc _ _
    have hu : u ∉ s.visited := by simpa using hc
    have hup : u ∉ s.processed := fun hmem => hu (hpv u hmem)
    refine ⟨by simp [hu, hnv], ?_, by simp [List.nodup_append, hnp, hup]⟩
    intro v hv
    rcases List.mem_append.mp hv with h1 | h1
    · exact .tail _ (hpv v h1)
    · simp only [List.mem_singleton] at h1
      subst h1
      exact List.mem_cons_self _ _

/-- Claim C1 (amended): the pending queue may receive the same URL more than
once (the membership test on fetch_content line 126 only filters URLs already
*fetched*), but every URL is fetched and processed at most once per root: the
dequeue-time membership check (line 172) precedes the fetch, and the fetch
marks the URL seen (line 94) before any work, so the seen set and the
processed-page list never repeat a URL in any run of the crawl. -/
theorem c1_urls_processed_at_most_once (pages : PageOracle) (main_url : String)
    (max_pages n : Nat) (url : String) :
    ((crawl_iter pages main_url max_pages n (crawl_init url)).visited).Nodup
      ∧ ((crawl_iter pages main_url max_pages n (crawl_init url)).processed).Nodup := by
  have h := crawl_iter_inv pages main_url max_pages DedupInv
    (dedupInv_step pages main_url) n (crawl_init url)
    ⟨List.nodup_nil, by simp [crawl_init], List.nodup_nil⟩
  exact ⟨h.1, h.2.2⟩

/-- Claim C1, counterexample to the claim as stated: on the graph `exPages`,
after the root, a and b have been processed the pending queue holds the URL c
*twice* - a URL can be enqueued more than once per crawl root, because the
seen-set check at discovery time (fetch_content line 126) does not see URLs
that are merely pending.  `take` (to_visit.pop(0)) subsequently yields c
twice as well; only the dequeue-time check stops the second fetch. -/
theorem c1_counterexample :
    (crawl_iter exPages "https://developer.apple.com/documentation/fw" 0 3
        (crawl_init "https://developer.apple.com/documentation/fw")).toVisit
      = ["https://developer.apple.com/documentation/fw/c",
         "https://developer.apple.com/documentation/fw/c"] := by
  decide

/-- A change of the processed-page list after one iteration can only come from
a fresh URL whose fetch succeeded with truthy formatted text. -/
theorem processed_changed_success (pages : PageOracle) (main_url : String)
    (s : CrawlState) (hne : (crawl_step pages main_url s).processed ≠ s.processed) :
    ∃ u rest hrefs text, s.toVisit = u :: rest ∧ s.visited.contains u = false
      ∧ pages u = some (hrefs, text) ∧ text ≠ "" := by
  refine crawl_step_elim pages main_url s
    (fun s2 => s2.processed ≠ s.processed →
      ∃ u rest hrefs text, s.toVisit = u :: rest ∧ s.visited.contains u = false
        ∧ pages u = some (hrefs, text) ∧ text ≠ "") ?_ ?_ ?_ ?_ ?_ hne
  · intro _ h; exact absurd rfl h
  · intro u rest _ _ h; exact absurd rfl h
  · intro u rest _ _ _ h; exact absurd rfl h
  · intro u rest hrefs _ _ _ h; exact absurd rfl h
  · intro u rest hrefs text hv hc hp ht _
    exact ⟨u, rest, hrefs, text, hv, hc, hp, ht⟩

/-- Claim C9: the processed-pages counter increments only for pages whose
fetch and extraction produced records.  A URL whose fetch fails (or whose page
has no main element) consumes its frontier entry and one driver.get, is marked
seen, but is not counted against the page budget, and its discovered links are
discarded (fetch_content returns an empty sub_urls list on that path); and any
growth of the processed list witnesses a successful, truthy extraction. -/
theorem c9_failed_page_not_counted (pages : PageOracle) (main_url : String)
    (s : CrawlState) (u : String) (rest : List String)
    (h : s.toVisit = u :: rest) (hv : s.visited.contains u = false)
    (hp : pages u = none) :
    ((crawl_step pages main_url s).processed = s.processed
        ∧ (crawl_step pages main_url s).toVisit = rest
        ∧ (crawl_step pages main_url s).visited = u :: s.visited
        ∧ (crawl_step pages main_url s).fetches = s.fetches + 1)
      ∧ ∀ s2 : CrawlState, (crawl_step pages main_url s2).processed ≠ s2.processed →
          ∃ u2 rest2 hrefs text, s2.toVisit = u2 :: rest2
            ∧ s2.visited.contains u2 = false
            ∧ pages u2 = some (hrefs, text) ∧ text ≠ "" := by
  constructor
  · rw [crawl_step_fail pages main_url s u rest h hv hp]
    exact ⟨rfl, rfl, rfl, rfl⟩
  · exact fun s2 => processed_changed_success pages main_url s2

/-- Witness for claim C9 at a concrete failing fetch. -/
theorem c9_witness :
    (crawl_step (fun _ => none) "m" ⟨["x"], [], [], 0, ""⟩).processed = [] :=
  ((c9_failed_page_not_counted (fun _ => none) "m" ⟨["x"], [], [], 0, ""⟩
    "x" [] rfl rfl rfl).1).1

/-! ### Scope containment and fragment handling (claims C6, C7) -/

/-- Membership in the sub_urls comprehension, unfolded. -/
theorem mem_sub_urls_iff {main_url : String} {visited hrefs : List String}
    {v : String} :
    v ∈ sub_urls main_url visited hrefs
      ↔ ∃ href, href ∈ hrefs ∧ sub_url_keep main_url visited href = true
          ∧ v = urljoinApple href := by
  unfold sub_urls
  constructor
  · intro hv
    obtain ⟨href, hf, rfl⟩ := List.mem_map.mp hv
    obtain ⟨hmem, hkeep⟩ := List.mem_filter.mp hf
    exact ⟨href, hmem, hkeep, rfl⟩
  · rintro ⟨href, hmem, hkeep, rfl⟩
    exact List.mem_map.mpr ⟨href, List.mem_filter.mpr ⟨hmem, hkeep⟩, rfl⟩

/-- Every URL admitted by the sub_urls comprehension is prefixed by the crawl
root, is not yet seen, and comes from a fragment-free href. -/
theorem sub_urls_admitted {main_url : String} {visited hrefs : List String}
    {v : String} (h : v ∈ sub_urls main_url visited hrefs) :
    pyStartsWithS v main_url = true ∧ visited.contains v = false := by
  obtain ⟨href, _, hkeep, rfl⟩ := mem_sub_urls_iff.mp h
  unfold sub_url_keep at hkeep
  simp only [Bool.and_eq_true, Bool.not_eq_true'] at hkeep
  exact ⟨hkeep.1.2, hkeep.2⟩

theorem scopeInv_step (pages : PageOracle) (main_url : String) (s : CrawlState)
    (hs : ScopeInv main_url s) : ScopeInv main_url (crawl_step pages main_url s) := by
  obtain ⟨htv, hvv⟩ := hs
  refine crawl_step_elim pages main_url s (ScopeInv main_url) ?_ ?_ ?_ ?_ ?_
  · intro _; exact ⟨htv, hvv⟩
  · intro u rest hq _
    refine ⟨fun v hv => htv v ?_, hvv⟩
    rw [hq]; exact List.mem_cons_of_mem _ hv
  · intro u rest hq _ _
    refine ⟨fun v hv => htv v (by rw [hq]; exact List.mem_cons_of_mem _ hv), ?_⟩
    intro v hv
    rcases List.mem_cons.mp hv with rfl | h1
    · exact htv v (by rw [hq]; exact List.mem_cons_self _ _)
    · exact hvv v h1
  · intro u rest hrefs hq _ _
    refine ⟨fun v hv => htv v (by rw [hq]; exact List.mem_cons_of_mem _ hv), ?_⟩
    intro v hv
    rcases List.mem_cons.mp hv with rfl | h1
    · exact htv v (by rw [hq]; exact List.mem_cons_self _ _)
    · exact hvv v h1
  · intro u rest hrefs text hq _ _ _
    constructor
    · intro v hv
      rcases List.mem_append.mp hv with h1 | h1
      · exact htv v (by rw [hq]; exact List.mem_cons_of_mem _ h1)
      · exact (sub_urls_admitted h1).1
    · intro v hv
      rcases List.mem_cons.mp hv with rfl | h1
      · exact htv v (by rw [hq]; exact List.mem_cons_self _ _)
      · exact hvv v h1

/-- Claim C6: scope containment.  (1) The admission test rejects any href
whose joined URL is not prefixed by the crawl root; (2) no out-of-scope URL
ever appears in a sub_urls result; (3) in any run of save_main_content's
crawl every fetched URL is prefixed by the root; (4) get_links of
create_swift_doc.py returns only URLs prefixed by its base_url. -/
theorem c6_scope_containment :
    (∀ (main_url : String) (visited : List String) (href : String),
        pyStartsWithS (urljoinApple href) main_url = false →
          sub_url_keep main_url visited href = false)
      ∧ (∀ (main_url : String) (visited hrefs : List String) (v : String),
          v ∈ sub_urls main_url visited hrefs → pyStartsWithS v main_url = true)
      ∧ (∀ (pages : PageOracle) (main_url : String) (max_pages n : Nat) (v : String),
          v ∈ (crawl_iter pages main_url max_pages n (crawl_init main_url)).visited →
            pyStartsWithS v main_url = true)
      ∧ (∀ (links : LinkOracle) (url base_url h : String),
          h ∈ get_links links url base_url → pyStartsWithS h base_url = true) := by
  refine ⟨?_, ?_, ?_, ?_⟩
  · intro main_url visited href hns
    unfold sub_url_keep
    rw [hns]
    simp
  · intro main_url visited hrefs v hv
    exact (sub_urls_admitted hv).1
  · intro pages main_url max_pages n v hv
    have hself : pyStartsWithS main_url main_url = true := by
      simp [pyStartsWithS, List.isPrefixOf_iff_prefix]
    have h := crawl_iter_inv pages main_url max_pages (ScopeInv main_url)
      (scopeInv_step pages main_url) n (crawl_init main_url)
      ⟨by simp [crawl_init, hself], by simp [crawl_init]⟩
    exact h.2 v hv
  · intro links url base_url h hmem
    have := List.mem_filter.mp hmem
    simp only [Bool.and_eq_true] at this
    exact this.2.1

/-- Witness for claim C6: a concrete out-of-scope href is rejected. -/
theorem c6_witness :
    sub_url_keep "https://developer.apple.com/documentation/fw" []
      "/documentation/other/page" = false :=
  c6_scope_containment.1 "https://developer.apple.com/documentation/fw" []
    "/documentation/other/page" (by decide)

/-- Claim C7, counterexample to the claim as stated: the in-scope href
`/documentation/fw/a#overview` carries a fragment; the claim says it is
admitted under its fragment-stripped form, but the comprehension's
`'#' not in a['href']` test drops it entirely: sub_urls admits nothing. -/
theorem c7_counterexample :
    sub_urls "https://developer.apple.com/documentation/fw" []
        ["/documentation/fw/a#overview"] = []
      ∧ claimFragmentKeep "https://developer.apple.com/documentation/fw" []
          "/documentation/fw/a#overview" = true := by
  constructor
  · decide
  · decide

/-- Claim C7 (amended): a URL carrying a fragment is never admitted in any
form - fragment-carrying hrefs are discarded wholesale by the comprehension
(nothing strips fragments before admission), so sub_urls is unchanged when
fragment-carrying hrefs are removed from its input; in particular a
fragment-only variant of a seen URL is never re-admitted. -/
theorem c7_fragments_dropped (main_url : String) (visited hrefs : List String) :
    sub_urls main_url visited hrefs
      = sub_urls main_url visited (hrefs.filter (fun h => !pyContainsChar h '#')) := by
  unfold sub_urls
  congr 1
  rw [List.filter_filter]
  refine (List.filter_congr ?_).symm
  intro h _
  cases hk : sub_url_keep main_url visited h
  · simp
  · have hnh : pyContainsChar h '#' = false := by
      unfold sub_url_keep at hk
      simp only [Bool.and_eq_true, Bool.not_eq_true'] at hk
      exact hk.1.1.2
    simp [hnh]

/-! ### Idempotent re-run and the merge step (claims C5, C8) -/

/-- If the root's artifact exists, save_main_content is the identity and
performs zero fetches. -/
theorem save_main_content_skips (pages : PageOracle) (output_dir fmt : String)
    (max_pages fuel : Nat) (fs : FileSystem) (url : String) (c : String)
    (hc : fs.lookup (output_filename output_dir fmt url) = some c) :
    save_main_content pages output_dir fmt max_pages fuel fs url = (fs, 0) := by
  unfold save_main_content
  rw [hc]

/-- After save_main_content runs, the root's artifact exists. -/
theorem save_main_content_writes (pages : PageOracle) (output_dir fmt : String)
    (max_pages fuel : Nat) (fs : FileSystem) (url : String) :
    ∃ c, ((save_main_content pages output_dir fmt max_pages fuel fs url).1).lookup
      (output_filename output_dir fmt url) = some c := by
  unfold save_main_content
  cases hc : fs.lookup (output_filename output_dir fmt url) with
  | some c => exact ⟨c, hc⟩
  | none =>
    refine ⟨(crawl_iter pages url max_pages fuel (crawl_init url)).out, ?_⟩
    simp [List.lookup]

/-- Claim C5: for a crawl root whose output artifact already exists,
re-invoking the crawl performs zero fetches and leaves the file system (hence
the artifact) byte-identical; consequently running the crawl twice equals
running it once - the second invocation is always a zero-fetch no-op on the
file system produced by the first. -/
theorem c5_idempotent_rerun (pages : PageOracle) (output_dir fmt : String)
    (max_pages fuel : Nat) (fs : FileSystem) (url : String) :
    (∀ c, fs.lookup (output_filename output_dir fmt url) = some c →
        save_main_content pages output_dir fmt max_pages fuel fs url = (fs, 0))
      ∧ save_main_content pages output_dir fmt max_pages fuel
          (save_main_content pages output_dir fmt max_pages fuel fs url).1 url
        = ((save_main_content pages output_dir fmt max_pages fuel fs url).1, 0) := by
  constructor
  · intro c hc
    exact save_main_content_skips pages output_dir fmt max_pages fuel fs url c hc
  · obtain ⟨c, hc⟩ := save_main_content_writes pages output_dir fmt max_pages fuel fs url
    exact save_main_content_skips pages output_dir fmt max_pages fuel _ url c hc

/-- Witness for claim C5: with the artifact data/fw.txt present, the crawl of
the fw root is skipped: zero fetches, file system unchanged. -/
theorem c5_witness :
    save_main_content exPages "data" "txt" 0 9 [("data/fw.txt", "old")]
        "https://developer.apple.com/documentation/fw"
      = ([("data/fw.txt", "old")], 0) :=
  (c5_idempotent_rerun exPages "data" "txt" 0 9 [("data/fw.txt", "old")]
    "https://developer.apple.com/documentation/fw").1 "old" (by decide)

/-- Claim C8, counterexample to the claim as stated: on a directory listing
that enumerates b.txt before a.txt, merge_files concatenates b's content
first, while the claimed lexicographic root order would put a's content
first.  glob.glob does not sort, so the merge order is the readdir order,
not the lexicographic order. -/
theorem c8_counterexample :
    merge_files [("b.txt", "B"), ("a.txt", "A")] = "B\nA\n"
      ∧ merge_files_sorted [("b.txt", "B"), ("a.txt", "A")] = "A\nB\n"
      ∧ merge_files [("b.txt", "B"), ("a.txt", "A")]
          ≠ merge_files_sorted [("b.txt", "B"), ("a.txt", "A")] := by
  refine ⟨by decide, by decide, by decide⟩

/-- merge_files's left fold produces the listing-order concatenation. -/
theorem merge_files_eq_concat (l : FileSystem) :
    ∀ acc : String, l.foldl (fun acc file => acc ++ file.2 ++ "\n") acc
      = acc ++ concatContents l := by
  induction l with
  | nil => intro acc; simp [concatContents]
  | cons f t ih =>
    intro acc
    simp only [List.foldl_cons, concatContents]
    rw [ih]
    simp [String.append_assoc]

/-- Claim C8 (amended): the merge step concatenates all per-root artifacts
into one combined artifact in the enumeration order of the directory listing
(with a newline after each artifact); that order agrees with the claimed
lexicographic root order exactly when the listing itself is enumerated in
lexicographic order. -/
theorem c8_merge_listing_order (listing : FileSystem) :
    merge_files listing = concatContents listing
      ∧ (listing.Sorted (fun a b => lexNameLe a.1.toList b.1.toList = true) →
          merge_files listing = merge_files_sorted listing) := by
  constructor
  · have h := merge_files_eq_concat listing ""
    unfold merge_files
    rw [h]
    exact (String.empty_append _)
  · intro hsorted
    unfold merge_files_sorted
    rw [List.Sorted.insertionSort_eq hsorted]

/-- Witness for claim C8 at a lexicographically enumerated listing. -/
theorem c8_witness :
    merge_files [("a.txt", "A"), ("b.txt", "B")]
      = merge_files_sorted [("a.txt", "A"), ("b.txt", "B")] :=
  (c8_merge_listing_order [("a.txt", "A"), ("b.txt", "B")]).2 (by decide)

/-! ### Termination and completeness of the sequential crawl (claim C2)

The crawl of save_main_content is sequential: one webdriver, one while loop.
Dequeued-but-unfinished work does not exist for it, so completion exactly
coincides with queue exhaustion (plus the budget).  The concurrent crawler of
create_swift_doc.py is refuted separately by c2_counterexample. -/

theorem fetch_ok_spec {pages : PageOracle} {u : String}
    (h : fetch_ok pages u = true) :
    ∃ hrefs text, pages u = some (hrefs, text) ∧ text ≠ "" := by
  unfold fetch_ok at h
  cases hp : pages u with
  | none => rw [hp] at h; cases h
  | some pr =>
    obtain ⟨hrefs, text⟩ := pr
    rw [hp] at h
    simp only [Bool.not_eq_true'] at h
    exact ⟨hrefs, text, rfl, by simpa using h⟩

/-- Admission with a seen set refines admission with an empty seen set. -/
theorem sub_url_keep_as_nil (main_url : String) (visited : List String) (href : String) :
    sub_url_keep main_url visited href
      = (sub_url_keep main_url [] href && !visited.contains (urljoinApple href)) := by
  unfold sub_url_keep
  simp [Bool.and_assoc]

/-- The sub_urls discovered against a seen set form a sublist of the
statically admissible ones. -/
theorem sub_urls_sublist (main_url : String) (visited hrefs : List String) :
    (sub_urls main_url visited hrefs).Sublist (sub_urls main_url [] hrefs) := by
  unfold sub_urls
  refine List.Sublist.map urljoinApple ?_
  have h : ∀ href, sub_url_keep main_url visited href = true →
      sub_url_keep main_url [] href = true := by
    intro href hk
    rw [sub_url_keep_as_nil] at hk
    simp only [Bool.and_eq_true] at hk
    exact hk.1
  exact List.monotone_filter_right hrefs h

/-- When the popped page fetches successfully, its enqueued sub_urls form a
sublist of its targets. -/
theorem sub_urls_sublist_targets {pages : PageOracle} {main_url u : String}
    {hrefs : List String} {text : String} (visited : List String)
    (hp : pages u = some (hrefs, text)) (ht : text ≠ "") :
    (sub_urls main_url visited hrefs).Sublist (targets pages main_url u) := by
  simp only [targets, hp]
  rw [if_neg ht]
  exact sub_urls_sublist main_url visited hrefs

/-- A property preserved by the guarded loop step is preserved by any number
of iterations. -/
theorem crawl_iter_loop_inv (pages : PageOracle) (main_url : String) (max_pages : Nat)
    (P : CrawlState → Prop)
    (hstep : ∀ s, P s → P (crawl_loop_step pages main_url max_pages s)) :
    ∀ (n : Nat) (s : CrawlState), P s → P (crawl_iter pages main_url max_pages n s) := by
  intro n
  induction n with
  | zero => intro s hs; exact hs
  | succ k ih =>
    intro s hs
    show P ((crawl_loop_step pages main_url max_pages)^[k + 1] s)
    rw [Function.iterate_succ_apply]
    exact ih _ (hstep s hs)

/-- Peeling a guarded iteration from the front. -/
theorem crawl_iter_succ_front (pages : PageOracle) (main_url : String)
    (max_pages n : Nat) (s : CrawlState) :
    crawl_iter pages main_url max_pages (n + 1) s
      = crawl_iter pages main_url max_pages n
          (crawl_loop_step pages main_url max_pages s) := by
  unfold crawl_iter
  rw [Function.iterate_succ_apply]

/-- One body iteration never removes processed pages: the old processed list
is a prefix of the new one. -/
theorem crawl_step_processed_isPre (pages : PageOracle) (main_url : String)
    (s : CrawlState) : s.processed <+: (crawl_step pages main_url s).processed := by
  refine crawl_step_elim pages main_url s (fun s2 => s.processed <+: s2.processed)
    ?_ ?_ ?_ ?_ ?_
  · intro _; exact List.prefix_refl _
  · intro u rest _ _; exact List.prefix_refl _
  · intro u rest _ _ _; exact List.prefix_refl _
  · intro u rest hrefs _ _ _; exact List.prefix_refl _
  · intro u rest hrefs text _ _ _ _
    exact ⟨[u], rfl⟩

/-- One body iteration adds at most one processed page. -/
theorem crawl_step_processed_le (pages : PageOracle) (main_url : String)
    (s : CrawlState) :
    (crawl_step pages main_url s).processed.length ≤ s.processed.length + 1 := by
  refine crawl_step_elim pages main_url s
    (fun s2 => s2.processed.length ≤ s.processed.length + 1) ?_ ?_ ?_ ?_ ?_
  · intro _; omega
  · intro u rest _ _; simp only []; omega
  · intro u rest _ _ _; simp only []; omega
  · intro u rest hrefs _ _ _; simp only []; omega
  · intro u rest hrefs text _ _ _ _
    simp only [List.length_append, List.length_cons, List.length_nil]
    omega

/-- A duplicate-free list contained in another list is no longer than it. -/
theorem nodup_subset_length_le {R L : List String} (hR : R.Nodup) (hsub : R ⊆ L) :
    R.length ≤ L.length := by
  calc R.length = R.toFinset.card := by rw [List.toFinset_card_of_nodup hR]
    _ ≤ L.toFinset.card := Finset.card_le_card (fun x hx => by
        rw [List.mem_toFinset] at hx ⊢
        exact hsub hx)
    _ ≤ L.length := L.toFinset_card_le

/-- Splitting a filtered sum at a distinguished element: if `u` satisfies `P`
but not `Q` and the two tests agree elsewhere, the `P`-sum over a
duplicate-free list containing `u` exceeds the `Q`-sum by exactly `f u`. -/
theorem sum_split_at (f : String → Nat) (u : String) (P Q : String → Bool)
    (hPu : P u = true) (hQu : Q u = false)
    (hagree : ∀ x, x ≠ u → Q x = P x) :
    ∀ U : List String, U.Nodup → u ∈ U →
      ((U.filter P).map f).sum = ((U.filter Q).map f).sum + f u := by
  intro U
  induction U with
  | nil => intro _ hu; cases hu
  | cons a t ih =>
    intro hnd hu
    rw [List.nodup_cons] at hnd
    obtain ⟨hat, hndt⟩ := hnd
    by_cases hau : a = u
    · subst hau
      have hteq : t.filter P = t.filter Q := by
        refine List.filter_congr ?_
        intro x hx
        exact (hagree x (fun he => hat (he ▸ hx))).symm
      simp only [List.filter_cons, hPu, hQu, if_true, Bool.false_eq_true, if_false,
        List.map_cons, List.sum_cons, hteq]
      omega
    · have hQa : Q a = P a := hagree a hau
      have hut : u ∈ t := by
        rcases List.mem_cons.mp hu with h | h
        · exact absurd h.symm hau
        · exact h
      cases hPa : P a
      · have hQa2 : Q a = false := by rw [hQa, hPa]
        simp only [List.filter_cons, hPa, hQa2, Bool.false_eq_true, if_false]
        exact ih hndt hut
      · have hQa2 : Q a = true := by rw [hQa, hPa]
        simp only [List.filter_cons, hPa, hQa2, if_true, List.map_cons, List.sum_cons]
        rw [ih hndt hut]
        omega

theorem queueInU_step (pages : PageOracle) (main_url : String) (U : List String)
    (hU : ClosedUniverse pages main_url U) (s : CrawlState) (hq : QueueInU U s) :
    QueueInU U (crawl_step pages main_url s) := by
  refine crawl_step_elim pages main_url s (QueueInU U) ?_ ?_ ?_ ?_ ?_
  · intro _; exact hq
  · intro u rest hts _ v hv
    exact hq v (by rw [hts]; exact List.mem_cons_of_mem _ hv)
  · intro u rest hts _ _ v hv
    exact hq v (by rw [hts]; exact List.mem_cons_of_mem _ hv)
  · intro u rest hrefs hts _ _ v hv
    exact hq v (by rw [hts]; exact List.mem_cons_of_mem _ hv)
  · intro u rest hrefs text hts hc hp ht v hv
    rcases List.mem_append.mp hv with h1 | h1
    · exact hq v (by rw [hts]; exact List.mem_cons_of_mem _ h1)
    · have hu : u ∈ U := hq u (by rw [hts]; exact List.mem_cons_self _ _)
      have hvt : v ∈ targets pages main_url u :=
        (sub_urls_sublist_targets (u :: s.visited) hp ht).subset h1
      exact hU.closed u hu v hvt

/-- Unfolding the loop guard when it holds. -/
theorem crawl_continue_spec {max_pages : Nat} {s : CrawlState}
    (h : crawl_continue max_pages s = true) :
    s.toVisit ≠ [] ∧ (max_pages = 0 ∨ s.processed.length < max_pages) := by
  unfold crawl_continue at h
  simp only [Bool.and_eq_true, Bool.or_eq_true, Bool.not_eq_true',
    List.isEmpty_eq_false, decide_eq_true_eq, beq_iff_eq] at h
  exact h

/-- With an unbounded budget the guard is just queue non-emptiness. -/
theorem crawl_continue_zero (s : CrawlState) :
    crawl_continue 0 s = !s.toVisit.isEmpty := by
  unfold crawl_continue
  simp

/-- Every guarded iteration of the loop strictly decreases the measure, as
long as the guard holds and the queue stays inside the universe. -/
theorem crawlMeasure_decreases (pages : PageOracle) (main_url : String)
    (U : List String) (hU : ClosedUniverse pages main_url U) (max_pages : Nat)
    (s : CrawlState) (hq : QueueInU U s) (hc : crawl_continue max_pages s = true) :
    crawlMeasure pages main_url U (crawl_step pages main_url s)
      < crawlMeasure pages main_url U s := by
  have hne : s.toVisit ≠ [] := (crawl_continue_spec hc).1
  refine crawl_step_elim pages main_url s
    (fun s2 => crawlMeasure pages main_url U s2 < crawlMeasure pages main_url U s)
    ?_ ?_ ?_ ?_ ?_
  · intro hts; exact absurd hts hne
  · intro u rest hts _
    unfold crawlMeasure
    rw [hts]
    simp only [List.length_cons]
    omega
  · intro u rest hts hcv hp
    unfold crawlMeasure
    rw [hts]
    have hu : u ∈ U := hq u (by rw [hts]; exact List.mem_cons_self _ _)
    have huv : u ∉ s.visited := by simpa using hcv
    have hsplit := sum_split_at (fun u => 1 + (targets pages main_url u).length) u
      (fun x => !s.visited.contains x) (fun x => !(u :: s.visited).contains x)
      (by simpa using huv) (by simp)
      (fun x hx => by simp [List.contains_cons, hx]) U hU.nodup hu
    simp only [List.length_cons]
    omega
  · intro u rest hrefs hts hcv hp
    unfold crawlMeasure
    rw [hts]
    have hu : u ∈ U := hq u (by rw [hts]; exact List.mem_cons_self _ _)
    have huv : u ∉ s.visited := by simpa using hcv
    have hsplit := sum_split_at (fun u => 1 + (targets pages main_url u).length) u
      (fun x => !s.visited.contains x) (fun x => !(u :: s.visited).contains x)
      (by simpa using huv) (by simp)
      (fun x hx => by simp [List.contains_cons, hx]) U hU.nodup hu
    simp only [List.length_cons]
    omega
  · intro u rest hrefs text hts hcv hp ht
    unfold crawlMeasure
    rw [hts]
    have hu : u ∈ U := hq u (by rw [hts]; exact List.mem_cons_self _ _)
    have huv : u ∉ s.visited := by simpa using hcv
    have hsplit := sum_split_at (fun u => 1 + (targets pages main_url u).length) u
      (fun x => !s.visited.contains x) (fun x => !(u :: s.visited).contains x)
      (by simpa using huv) (by simp)
      (fun x hx => by simp [List.contains_cons, hx]) U hU.nodup hu
    have hsub : (sub_urls main_url (u :: s.visited) hrefs).length
        ≤ (targets pages main_url u).length :=
      (sub_urls_sublist_targets (u :: s.visited) hp ht).length_le
    simp only [] at hsplit
    simp only [List.length_cons, List.length_append]
    omega

/-- Enough fuel drives the loop to a state where the guard is false. -/
theorem crawl_fuel_sufficient (pages : PageOracle) (main_url : String)
    (U : List String) (hU : ClosedUniverse pages main_url U) (max_pages : Nat) :
    ∀ (k : Nat) (s : CrawlState), crawlMeasure pages main_url U s ≤ k →
      QueueInU U s →
      crawl_continue max_pages (crawl_iter pages main_url max_pages k s) = false := by
  intro k
  induction k with
  | zero =>
    intro s hm hq
    cases hc : crawl_continue max_pages s
    · exact hc
    · exfalso
      have hne : s.toVisit ≠ [] := (crawl_continue_spec hc).1
      have : 1 ≤ s.toVisit.length := by
        cases hts : s.toVisit with
        | nil => exact absurd hts hne
        | cons a t => simp [hts]
      unfold crawlMeasure at hm
      omega
  | succ k ih =>
    intro s hm hq
    rw [crawl_iter_succ_front]
    cases hc : crawl_continue max_pages s
    · have hstay : crawl_loop_step pages main_url max_pages s = s := by
        unfold crawl_loop_step
        rw [hc]
        exact if_neg (by simp)
      rw [hstay]
      have hstay2 : crawl_iter pages main_url max_pages k s = s := by
        have h0 : crawl_continue max_pages (crawl_iter pages main_url max_pages 0 s)
            = false := hc
        have := crawl_iter_stable pages main_url max_pages 0 s h0 k
        simpa using this
      rw [hstay2]
      exact hc
    · have hstep : crawl_loop_step pages main_url max_pages s
          = crawl_step pages main_url s := by
        unfold crawl_loop_step
        rw [hc]
        exact if_pos rfl
      rw [hstep]
      refine ih (crawl_step pages main_url s) ?_
        (queueInU_step pages main_url U hU s hq)
      have := crawlMeasure_decreases pages main_url U hU max_pages s hq hc
      omega

/-- Unfolding targets on a successfully fetched page. -/
theorem targets_of_ok {pages : PageOracle} {u : String} {hrefs : List String}
    {text : String} (main_url : String) (hp : pages u = some (hrefs, text))
    (ht : text ≠ "") :
    targets pages main_url u = sub_urls main_url [] hrefs := by
  simp only [targets, hp]
  rw [if_neg ht]

/-- A statically admissible link that is still unseen is admitted against the
current seen set as well. -/
theorem mem_sub_urls_of_unvisited {main_url : String} {visited hrefs : List String}
    {v : String} (hv : v ∈ sub_urls main_url [] hrefs)
    (hnv : visited.contains v = false) :
    v ∈ sub_urls main_url visited hrefs := by
  obtain ⟨href, hmem, hkeep, rfl⟩ := mem_sub_urls_iff.mp hv
  refine mem_sub_urls_iff.mpr ⟨href, hmem, ?_, rfl⟩
  rw [sub_url_keep_as_nil, hkeep, hnv]
  rfl

theorem crawlInv_step (pages : PageOracle) (main_url : String) (U : List String)
    (hU : ClosedUniverse pages main_url U) (hS : AllSuccess pages U)
    (s : CrawlState) (hs : CrawlInv pages main_url U s) :
    CrawlInv pages main_url U (crawl_step pages main_url s) := by
  obtain ⟨hq, hvU, hcl, hpv, hseed, hrv, hrt⟩ := hs
  refine crawl_step_elim pages main_url s (CrawlInv pages main_url U) ?_ ?_ ?_ ?_ ?_
  · intro _
    exact ⟨hq, hvU, hcl, hpv, hseed, hrv, hrt⟩
  · intro u rest hts hcv
    have hmem : ∀ v ∈ rest, v ∈ s.toVisit := fun v hv => by
      rw [hts]; exact List.mem_cons_of_mem _ hv
    refine ⟨fun v hv => hq v (hmem v hv), hvU, ?_, hpv, ?_, hrv,
      fun v hv => hrt v (hmem v hv)⟩
    · intro a ha v hv
      rcases hcl a ha v hv with h | h
      · exact Or.inl h
      · rw [hts] at h
        rcases List.mem_cons.mp h with rfl | h2
        · exact Or.inl (by simpa using hcv)
        · exact Or.inr h2
    · rcases hseed with h | h
      · exact Or.inl h
      · rw [hts] at h
        rcases List.mem_cons.mp h with rfl | h2
        · exact Or.inl (by simpa using hcv)
        · exact Or.inr h2
  · intro u rest hts hcv hp
    exfalso
    have hu : u ∈ U := hq u (by rw [hts]; exact List.mem_cons_self _ _)
    have hok := hS u hu
    unfold fetch_ok at hok
    rw [hp] at hok
    cases hok
  · intro u rest hrefs hts hcv hp
    exfalso
    have hu : u ∈ U := hq u (by rw [hts]; exact List.mem_cons_self _ _)
    have hok := hS u hu
    unfold fetch_ok at hok
    rw [hp] at hok
    simp at hok
  · intro u rest hrefs text hts hcv hp ht
    have huq : u ∈ s.toVisit := by rw [hts]; exact List.mem_cons_self _ _
    have hu : u ∈ U := hq u huq
    have hmemr : ∀ v ∈ rest, v ∈ s.toVisit := fun v hv => by
      rw [hts]; exact List.mem_cons_of_mem _ hv
    have hsubsT : ∀ v ∈ sub_urls main_url (u :: s.visited) hrefs,
        v ∈ targets pages main_url u :=
      fun v hv => (sub_urls_sublist_targets (u :: s.visited) hp ht).subset hv
    refine ⟨?_, ?_, ?_, ?_, ?_, ?_, ?_⟩
    · intro v hv
      rcases List.mem_append.mp hv with h1 | h1
      · exact hq v (hmemr v h1)
      · exact hU.closed u hu v (hsubsT v h1)
    · intro v hv
      rcases List.mem_cons.mp hv with rfl | h1
      · exact hu
      · exact hvU v h1
    · intro a ha v hv
      rcases List.mem_cons.mp ha with rfl | ha2
      · by_cases hvv : v ∈ a :: s.visited
        · exact Or.inl hvv
        · refine Or.inr (List.mem_append.mpr (Or.inr ?_))
          rw [targets_of_ok main_url hp ht] at hv
          exact mem_sub_urls_of_unvisited hv (by simpa using hvv)
      · rcases hcl a ha2 v hv with h | h
        · exact Or.inl (List.mem_cons_of_mem _ h)
        · rw [hts] at h
          rcases List.mem_cons.mp h with rfl | h2
          · exact Or.inl (List.mem_cons_self _ _)
          · exact Or.inr (List.mem_append.mpr (Or.inl h2))
    · intro v
      constructor
      · intro hv
        rcases List.mem_cons.mp hv with rfl | h1
        · exact List.mem_append.mpr (Or.inr (List.mem_singleton.mpr rfl))
        · exact List.mem_append.mpr (Or.inl ((hpv v).mp h1))
      · intro hv
        rcases List.mem_append.mp hv with h1 | h1
        · exact List.mem_cons_of_mem _ ((hpv v).mpr h1)
        · rw [List.mem_singleton] at h1
          subst h1
          exact List.mem_cons_self _ _
    · rcases hseed with h | h
      · exact Or.inl (List.mem_cons_of_mem _ h)
      · rw [hts] at h
        rcases List.mem_cons.mp h with rfl | h2
        · exact Or.inl (List.mem_cons_self _ _)
        · exact Or.inr (List.mem_append.mpr (Or.inl h2))
    · intro v hv
      rcases List.mem_cons.mp hv with rfl | h1
      · exact hrt v huq
      · exact hrv v h1
    · intro v hv
      rcases List.mem_append.mp hv with h1 | h1
      · exact hrt v (hmemr v h1)
      · exact Relation.ReflTransGen.tail (hrt u huq) (hsubsT v h1)

/-- The invariant holds at the crawl's initial state. -/
theorem crawlInv_init (pages : PageOracle) (main_url : String) (U : List String)
    (hU : ClosedUniverse pages main_url U) :
    CrawlInv pages main_url U (crawl_init main_url) := by
  refine ⟨?_, ?_, ?_, ?_, ?_, ?_, ?_⟩
  · intro v hv
    simp only [crawl_init, List.mem_singleton] at hv
    exact hv ▸ hU.seed_mem
  · intro v hv
    simp [crawl_init] at hv
  · intro a ha
    simp [crawl_init] at ha
  · intro v
    simp [crawl_init]
  · exact Or.inr (by simp [crawl_init])
  · intro v hv
    simp [crawl_init] at hv
  · intro v hv
    simp only [crawl_init, List.mem_singleton] at hv
    exact hv ▸ Relation.ReflTransGen.refl

/-- If the crawl's queue has emptied, the processed list contains exactly the
URLs reachable from the seed (for any page budget). -/
theorem crawl_processed_iff_reaches (pages : PageOracle) (main_url : String)
    (U : List String) (hU : ClosedUniverse pages main_url U)
    (hS : AllSuccess pages U) (max_pages n : Nat)
    (hempty : (crawl_iter pages main_url max_pages n (crawl_init main_url)).toVisit
      = []) :
    ∀ v, v ∈ (crawl_iter pages main_url max_pages n (crawl_init main_url)).processed
      ↔ Reaches pages main_url main_url v := by
  have hinv := crawl_iter_inv pages main_url max_pages (CrawlInv pages main_url U)
    (crawlInv_step pages main_url U hU hS) n (crawl_init main_url)
    (crawlInv_init pages main_url U hU)
  obtain ⟨hq, hvU, hcl, hpv, hseed, hrv, hrt⟩ := hinv
  intro v
  constructor
  · intro hv
    exact hrv v ((hpv v).mpr hv)
  · intro hr
    refine (hpv v).mp ?_
    have hseedv : main_url
        ∈ (crawl_iter pages main_url max_pages n (crawl_init main_url)).visited := by
      rcases hseed with h | h
      · exact h
      · rw [hempty] at h
        cases h
    induction hr with
    | refl => exact hseedv
    | tail hab hbc ih =>
      rcases hcl _ ih _ hbc with h | h
      · exact h
      · rw [hempty] at h
        cases h

/-- Claim C2 (amended, part 1): the sequential crawl of save_main_content
with an unbounded page budget, on a finite closed link universe whose pages
all fetch successfully, terminates - after enough iterations the loop guard
is false - and at that point the pending queue is empty (the loop is
sequential: there is no dequeued-but-unfinished work, so queue emptiness is
exactly quiescence) and the processed list enumerates, without duplicates,
exactly the URLs reachable from the seed along admissible links.  The
concurrent crawler of create_swift_doc.py does *not* have this property: see
the counterexample. -/
theorem c2_sequential_crawl_complete (pages : PageOracle) (main_url : String)
    (U : List String) (hU : ClosedUniverse pages main_url U)
    (hS : AllSuccess pages U) :
    ∃ n : Nat,
      crawl_continue 0 (crawl_iter pages main_url 0 n (crawl_init main_url)) = false
        ∧ (crawl_iter pages main_url 0 n (crawl_init main_url)).toVisit = []
        ∧ (crawl_iter pages main_url 0 n (crawl_init main_url)).processed.Nodup
        ∧ (∀ v, v ∈ (crawl_iter pages main_url 0 n (crawl_init main_url)).processed
            ↔ Reaches pages main_url main_url v) := by
  have hqinit : QueueInU U (crawl_init main_url) := by
    intro v hv
    simp only [crawl_init, List.mem_singleton] at hv
    exact hv ▸ hU.seed_mem
  refine ⟨crawlMeasure pages main_url U (crawl_init main_url), ?_⟩
  have hstop := crawl_fuel_sufficient pages main_url U hU 0
    (crawlMeasure pages main_url U (crawl_init main_url)) (crawl_init main_url)
    le_rfl hqinit
  have hempty : (crawl_iter pages main_url 0
      (crawlMeasure pages main_url U (crawl_init main_url))
      (crawl_init main_url)).toVisit = [] := by
    rw [crawl_continue_zero] at hstop
    simpa using hstop
  have hd := crawl_iter_inv pages main_url 0 DedupInv (dedupInv_step pages main_url)
    (crawlMeasure pages main_url U (crawl_init main_url)) (crawl_init main_url)
    ⟨List.nodup_nil, fun v hv => by simp [crawl_init] at hv, List.nodup_nil⟩
  rw [crawl_continue_zero]
  refine ⟨by simpa using hempty, hempty, hd.2.2, ?_⟩
  exact crawl_processed_iff_reaches pages main_url U hU hS 0 _ hempty

/-- Witness for claim C2 on the concrete exPages graph. -/
theorem c2_witness :
    ∃ n : Nat,
      crawl_continue 0 (crawl_iter exPages
          "https://developer.apple.com/documentation/fw" 0 n
          (crawl_init "https://developer.apple.com/documentation/fw")) = false
        ∧ (crawl_iter exPages "https://developer.apple.com/documentation/fw" 0 n
            (crawl_init "https://developer.apple.com/documentation/fw")).toVisit = []
        ∧ (crawl_iter exPages "https://developer.apple.com/documentation/fw" 0 n
            (crawl_init "https://developer.apple.com/documentation/fw")).processed.Nodup
        ∧ (∀ v, v ∈ (crawl_iter exPages "https://developer.apple.com/documentation/fw"
              0 n (crawl_init "https://developer.apple.com/documentation/fw")).processed
            ↔ Reaches exPages "https://developer.apple.com/documentation/fw"
                "https://developer.apple.com/documentation/fw" v) :=
  c2_sequential_crawl_complete exPages "https://developer.apple.com/documentation/fw"
    exU ⟨by decide, by decide, by decide⟩ (by unfold AllSuccess; decide)

/-- Claim C2, counterexample to the claim as stated: on the finite, fully
connected three-hop chain `swiftLinks` (no page budget exists in
create_swift_doc.py), the run of main processes exactly a and b and then
completes, although c is a reachable in-scope URL - it is discovered by the
late-submitted future for b, whose result is never consumed because
`as_completed` iterates only the initial snapshot of futures.  The run
declares completion while discovered work remains unprocessed: reachable
URLs more than two link-steps from the seed page are silently dropped. -/
theorem c2_counterexample :
    swift_main_processed swiftLinks
        "https://docs.swift.org/swift-book/documentation/the-swift-programming-language"
      = ["https://docs.swift.org/swift-book/documentation/the-swift-programming-language/a",
         "https://docs.swift.org/swift-book/documentation/the-swift-programming-language/b"]
      ∧ "https://docs.swift.org/swift-book/documentation/the-swift-programming-language/c"
          ∈ get_links swiftLinks
            "https://docs.swift.org/swift-book/documentation/the-swift-programming-language/b"
            "https://docs.swift.org/swift-book/documentation/the-swift-programming-language"
      ∧ "https://docs.swift.org/swift-book/documentation/the-swift-programming-language/c"
          ∉ swift_main_processed swiftLinks
            "https://docs.swift.org/swift-book/documentation/the-swift-programming-language" := by
  refine ⟨by decide, by decide, by decide⟩

/-! ### The page budget (claim C4) -/

/-- The guard fails once a non-zero budget is reached. -/
theorem crawl_continue_reached {N : Nat} (hN : N ≠ 0) (s : CrawlState)
    (h : ¬ s.processed.length < N) : crawl_continue N s = false := by
  unfold crawl_continue
  have h1 : (N == 0) = false := by simpa using hN
  have h2 : decide (s.processed.length < N) = false := by simpa using h
  rw [h1, h2]
  simp

/-- The guarded loop never removes processed pages either. -/
theorem crawl_loop_step_processed_isPre (pages : PageOracle) (main_url : String)
    (max_pages : Nat) (s : CrawlState) :
    s.processed <+: (crawl_loop_step pages main_url max_pages s).processed := by
  unfold crawl_loop_step
  split
  · exact crawl_step_processed_isPre pages main_url s
  · exact List.prefix_refl _

/-- Budget-N run versus unbounded run from the same seed: the budgeted
processed list never exceeds N, is always a prefix of the unbounded one, and
the two runs agree as long as the budget has not been reached. -/
theorem crawl_budget_run_prefix (pages : PageOracle) (main_url : String)
    (N : Nat) (hN : N ≠ 0) (u : String) :
    ∀ n, ((crawl_iter pages main_url N n (crawl_init u)).processed.length ≤ N)
      ∧ ((crawl_iter pages main_url N n (crawl_init u)).processed
          <+: (crawl_iter pages main_url 0 n (crawl_init u)).processed)
      ∧ ((crawl_iter pages main_url N n (crawl_init u)).processed.length < N →
          crawl_iter pages main_url N n (crawl_init u)
            = crawl_iter pages main_url 0 n (crawl_init u)) := by
  intro n
  induction n with
  | zero =>
    refine ⟨by simp [crawl_iter, crawl_init], ?_, fun _ => rfl⟩
    exact List.prefix_refl _
  | succ k ih =>
    obtain ⟨hlen, hpre, heq⟩ := ih
    rw [crawl_iter_succ, crawl_iter_succ]
    by_cases hlt : (crawl_iter pages main_url N k (crawl_init u)).processed.length < N
    · have he := heq hlt
      rw [he] at hlt ⊢
      have hg : crawl_continue N (crawl_iter pages main_url 0 k (crawl_init u))
          = crawl_continue 0 (crawl_iter pages main_url 0 k (crawl_init u)) := by
        unfold crawl_continue
        have h1 : (N == 0) = false := by simpa using hN
        have h2 : decide ((crawl_iter pages main_url 0 k
            (crawl_init u)).processed.length < N) = true := decide_eq_true hlt
        rw [h1, h2]
        simp
      have hsame : crawl_loop_step pages main_url N
            (crawl_iter pages main_url 0 k (crawl_init u))
          = crawl_loop_step pages main_url 0
            (crawl_iter pages main_url 0 k (crawl_init u)) := by
        unfold crawl_loop_step
        rw [hg]
      rw [hsame]
      refine ⟨?_, List.prefix_refl _, fun _ => rfl⟩
      unfold crawl_loop_step
      cases hc : crawl_continue 0 (crawl_iter pages main_url 0 k (crawl_init u))
      · rw [if_neg (by simp)]
        omega
      · rw [if_pos rfl]
        have := crawl_step_processed_le pages main_url
          (crawl_iter pages main_url 0 k (crawl_init u))
        omega
    · have hstall : crawl_continue N (crawl_iter pages main_url N k (crawl_init u))
          = false := crawl_continue_reached hN _ hlt
      have hstay : crawl_loop_step pages main_url N
            (crawl_iter pages main_url N k (crawl_init u))
          = crawl_iter pages main_url N k (crawl_init u) := by
        unfold crawl_loop_step
        rw [hstall]
        exact if_neg (by simp)
      rw [hstay]
      refine ⟨hlen, ?_, fun hlt2 => absurd hlt2 hlt⟩
      exact hpre.trans (crawl_loop_step_processed_isPre pages main_url 0 _)

/-- Claim C4: with a page budget N > 0 on a root with more than N reachable
URLs (all fetching successfully, in a finite closed universe), exactly N
pages are processed, they are the first N pages of the unbudgeted FIFO
discovery order, and the run terminates with a non-empty frontier; a budget
of 0 disables the bound entirely - the guard then only tests the queue. -/
theorem c4_page_budget (pages : PageOracle) (main_url : String) (U : List String)
    (N : Nat) (hU : ClosedUniverse pages main_url U) (hS : AllSuccess pages U)
    (hN : N ≠ 0)
    (hR : ∃ R : List String, R.Nodup
      ∧ (∀ v ∈ R, Reaches pages main_url main_url v) ∧ N < R.length) :
    (∀ s : CrawlState, crawl_continue 0 s = !s.toVisit.isEmpty)
      ∧ ∃ n : Nat,
        crawl_continue N (crawl_iter pages main_url N n (crawl_init main_url)) = false
          ∧ crawl_continue 0 (crawl_iter pages main_url 0 n (crawl_init main_url)) = false
          ∧ (crawl_iter pages main_url N n (crawl_init main_url)).processed
              = ((crawl_iter pages main_url 0 n (crawl_init main_url)).processed).take N
          ∧ (crawl_iter pages main_url N n (crawl_init main_url)).processed.length = N
          ∧ (crawl_iter pages main_url N n (crawl_init main_url)).toVisit ≠ [] := by
  obtain ⟨R, hRnd, hRreach, hRlen⟩ := hR
  have hqinit : QueueInU U (crawl_init main_url) := by
    intro v hv
    simp only [crawl_init, List.mem_singleton] at hv
    exact hv ▸ hU.seed_mem
  refine ⟨crawl_continue_zero, crawlMeasure pages main_url U (crawl_init main_url),
    ?_, ?_, ?_, ?_, ?_⟩
  all_goals
    have hstopN := crawl_fuel_sufficient pages main_url U hU N
      (crawlMeasure pages main_url U (crawl_init main_url)) (crawl_init main_url)
      le_rfl hqinit
    have hstop0 := crawl_fuel_sufficient pages main_url U hU 0
      (crawlMeasure pages main_url U (crawl_init main_url)) (crawl_init main_url)
      le_rfl hqinit
    have hempty0 : (crawl_iter pages main_url 0
        (crawlMeasure pages main_url U (crawl_init main_url))
        (crawl_init main_url)).toVisit = [] := by
      rw [crawl_continue_zero] at hstop0
      simpa using hstop0
    have hcomp0 := crawl_processed_iff_reaches pages main_url U hU hS 0 _ hempty0
    have hRsub0 : R ⊆ (crawl_iter pages main_url 0
        (crawlMeasure pages main_url U (crawl_init main_url))
        (crawl_init main_url)).processed :=
      fun v hv => (hcomp0 v).mpr (hRreach v hv)
    have hlen0 : N < (crawl_iter pages main_url 0
        (crawlMeasure pages main_url U (crawl_init main_url))
        (crawl_init main_url)).processed.length :=
      lt_of_lt_of_le hRlen (nodup_subset_length_le hRnd hRsub0)
    obtain ⟨hlenN, hpreN, heqN⟩ := crawl_budget_run_prefix pages main_url N hN main_url
      (crawlMeasure pages main_url U (crawl_init main_url))
    have hNeq : (crawl_iter pages main_url N
        (crawlMeasure pages main_url U (crawl_init main_url))
        (crawl_init main_url)).processed.length = N := by
      by_contra hne
      have hlt : (crawl_iter pages main_url N
          (crawlMeasure pages main_url U (crawl_init main_url))
          (crawl_init main_url)).processed.length < N := by omega
      have := heqN hlt
      rw [this] at hlt
      omega
  · exact hstopN
  · rw [crawl_continue_zero]
    simpa using hempty0
  · have := List.prefix_iff_eq_take.mp hpreN
    rw [hNeq] at this
    exact this
  · exact hNeq
  · intro hemptyN
    have hcompN := crawl_processed_iff_reaches pages main_url U hU hS N _ hemptyN
    have hRsubN : R ⊆ (crawl_iter pages main_url N
        (crawlMeasure pages main_url U (crawl_init main_url))
        (crawl_init main_url)).processed :=
      fun v hv => (hcompN v).mpr (hRreach v hv)
    have := nodup_subset_length_le hRnd hRsubN
    omega

/-- Witness for claim C4: budget 1 on the four-page exPages graph. -/
theorem c4_witness :
    (∀ s : CrawlState, crawl_continue 0 s = !s.toVisit.isEmpty)
      ∧ ∃ n : Nat,
        crawl_continue 1 (crawl_iter exPages
            "https://developer.apple.com/documentation/fw" 1 n
            (crawl_init "https://developer.apple.com/documentation/fw")) = false
          ∧ crawl_continue 0 (crawl_iter exPages
              "https://developer.apple.com/documentation/fw" 0 n
              (crawl_init "https://developer.apple.com/documentation/fw")) = false
          ∧ (crawl_iter exPages "https://developer.apple.com/documentation/fw" 1 n
              (crawl_init "https://developer.apple.com/documentation/fw")).processed
              = ((crawl_iter exPages "https://developer.apple.com/documentation/fw" 0 n
                  (crawl_init "https://developer.apple.com/documentation/fw")).processed).take 1
          ∧ (crawl_iter exPages "https://developer.apple.com/documentation/fw" 1 n
              (crawl_init
                "https://developer.apple.com/documentation/fw")).processed.length = 1
          ∧ (crawl_iter exPages "https://developer.apple.com/documentation/fw" 1 n
              (crawl_init "https://developer.apple.com/documentation/fw")).toVisit ≠ [] :=
  c4_page_budget exPages "https://developer.apple.com/documentation/fw" exU 1
    ⟨by decide, by decide, by decide⟩ (by unfold AllSuccess; decide) (by decide)
    ⟨["https://developer.apple.com/documentation/fw",
      "https://developer.apple.com/documentation/fw/a"], by decide, by
        intro v hv
        rcases List.mem_cons.mp hv with rfl | hv2
        · exact Relation.ReflTransGen.refl
        · rw [List.mem_singleton] at hv2
          subst hv2
          exact Relation.ReflTransGen.tail Relation.ReflTransGen.refl (by decide),
      by decide⟩

/-! ### Failure handling of the video scraper (claim C3) -/

/-- Claim C3, behaviour of the code at the failing input: a session URL whose
page load raises.  fetch_code_samples_in_videos returns the error *message*
instead of an empty record list; main's `extend` then splatters the message
into all_code_samples character by character - 27 spurious entries instead of
the claimed zero records - and save_code_samples_to_file subsequently raises
TypeError on the first character entry, aborting the run.  The error is thus
neither degraded to zero records nor isolated from the rest of the run,
contradicting the claim; the claim describes the intended behaviour, the
return of an error string where a list is expected is the slip. -/
theorem c3_error_string_pollutes_output :
    collect_video_samples (fun _ => VideoPageLoad.loadError "boom") ["u"]
        = ("Error while loading u: boom".toList.map OutEntry.ch)
      ∧ (collect_video_samples (fun _ => VideoPageLoad.loadError "boom") ["u"]).length
          = 27
      ∧ save_code_samples_to_file
          (collect_video_samples (fun _ => VideoPageLoad.loadError "boom") ["u"])
        = Except.error "TypeError: string indices must be integers" := by
  refine ⟨by decide, by decide, by rfl⟩

end VisionosAssist
